import Mathlib

/-!
Shallow embedding of the request-admission and guardrail subsystem of the
career_agent repository (file src/setup/guardrails.py): the keyword filter
(QueryGuard), the token-budget estimator (TokenGuard), the sliding-window
rate limiter (RateLimiter), and the tool-call parameter filter
(FunctionGuard), together with proofs of the specification claims.

Modelling conventions:
* a message part (google.genai types.Part) is a record with an optional text;
* a conversation turn (types.Content) is a role string plus a list of parts;
* a guardrail that returns Optional[LlmResponse] is modelled as a function
  into Option String, where some msg is a Rejection carrying the user-facing
  explanation text and none means proceed;
* time.time() values are modelled as rationals; the Python int() conversion
  (truncation toward zero) is modelled by pyTrunc;
* an uncaught Python exception is modelled by the error branch of Except.
-/

namespace Guardrails

/-- A message part: types.Part, holding an optional text payload. -/
structure Part where
  text : Option String
deriving DecidableEq

/-- A conversation turn: types.Content, a role plus a list of parts. -/
structure Content where
  role : String
  parts : List Part
deriving DecidableEq

/-- Python str.upper, modelled as a character-wise upcasing of the data. -/
def pyUpper (s : String) : String := String.mk (s.data.map Char.toUpper)

/-- Python str.lower, modelled as a character-wise downcasing of the data. -/
def pyLower (s : String) : String := String.mk (s.data.map Char.toLower)

/-- The reversed-history scan shared by QueryGuard and TokenGuard:
walks the (already reversed) contents, returning the text of the first
entry whose role is user, whose parts list is nonempty and whose first
part has truthy (present and nonempty) text; otherwise the empty string.
Mirrors the for-loop over reversed(llm_request.contents). -/
def lastUserTextRev : List Content → String
  | [] => ""
  | c :: rest =>
      match c.parts with
      | [] => lastUserTextRev rest
      | p :: _ =>
          if c.role = "user" then
            match p.text with
            | some t => if t = "" then lastUserTextRev rest else t
            | none => lastUserTextRev rest
          else lastUserTextRev rest

/-- The latest user-authored text of a request, as extracted by the source:
scan the history in reverse for the first user entry with truthy text. -/
def lastUserMessageText (contents : List Content) : String :=
  lastUserTextRev contents.reverse

/-- QueryGuard: configuration is the list of blocked words. -/
structure QueryGuard where
  blocked_words : List String

/-- The rejection text built by QueryGuard for a matched keyword. -/
def blockedKeywordMessage (kw : String) : String :=
  "I cannot process this request because it contains the blocked keyword \x27"
    ++ kw ++ "\x27."

/-- QueryGuard.__call__: extract the latest user text; if the blocked-word
list is nonempty, reject on the first word whose uppercased form occurs as a
substring of the uppercased text (Python: kw.upper() in text.upper()). -/
def QueryGuard.call (g : QueryGuard) (contents : List Content) : Option String :=
  let text := lastUserMessageText contents
  if 0 < g.blocked_words.length then
    match g.blocked_words.find?
        (fun kw => decide ((pyUpper kw).data <:+: (pyUpper text).data)) with
    | some kw => some (blockedKeywordMessage kw)
    | none => none
  else
    none

/-- TokenGuard: two ceilings, the chars-per-token divisor, and the mutable
document-mode flag. -/
structure TokenGuard where
  max_tokens : Nat
  document_upload_max_tokens : Nat
  chars_per_token : Nat
  is_document_upload : Bool
deriving DecidableEq

/-- TokenGuard.__init__: chars_per_token is fixed at 4 and the document
flag starts false. -/
def TokenGuard.make (maxTokens docTokens : Nat) : TokenGuard :=
  ⟨maxTokens, docTokens, 4, false⟩

/-- TokenGuard.set_document_mode: record whether the current query stems
from a document upload. -/
def TokenGuard.set_document_mode (g : TokenGuard) (is_document : Bool) : TokenGuard :=
  { g with is_document_upload := is_document }

/-- The ceiling selected by the document-mode flag. -/
def TokenGuard.tokenLimit (g : TokenGuard) : Nat :=
  if g.is_document_upload then g.document_upload_max_tokens else g.max_tokens

/-- The rejection text built by TokenGuard. -/
def tokenLimitMessage (isDoc : Bool) (limit : Nat) : String :=
  "I cannot process this "
    ++ (if isDoc then "document upload" else "direct message")
    ++ " as it exceeds the token limit of " ++ toString limit
    ++ ". Please try a shorter input."

/-- TokenGuard.__call__: estimate tokens as length // chars_per_token of the
latest user text and reject exactly when the estimate strictly exceeds the
selected ceiling. -/
def TokenGuard.call (g : TokenGuard) (contents : List Content) : Option String :=
  let text := lastUserMessageText contents
  let estimated_tokens := text.length / g.chars_per_token
  if estimated_tokens > g.tokenLimit then
    some (tokenLimitMessage g.is_document_upload g.tokenLimit)
  else
    none

/-- RateLimiter state: quota, window length in seconds, and the deque of
admitted-request timestamps (oldest first). -/
structure RateLimiter where
  max_requests : Nat
  time_window : Rat
  requests : List Rat
deriving DecidableEq

/-- A freshly constructed RateLimiter: empty deque. -/
def RateLimiter.make (maxRequests : Nat) (timeWindow : Rat) : RateLimiter :=
  ⟨maxRequests, timeWindow, []⟩

/-- Python int() applied to a rational: truncation toward zero. -/
def pyTrunc (q : Rat) : Int := if q < 0 then ⌈q⌉ else ⌊q⌋

/-- The stale-entry purge loop: while requests and requests[0] <= now - window,
popleft. This is exactly a dropWhile on the oldest-first deque. -/
def RateLimiter.purge (rl : RateLimiter) (now : Rat) : List Rat :=
  rl.requests.dropWhile (fun t => decide (t ≤ now - rl.time_window))

/-- RateLimiter.__call__ at instant now. After the purge, if the remaining
count reaches the quota the call reads requests[0] (raising IndexError when
the purged deque is empty, modelled by the error branch) and returns a
Rejection carrying wait_time = int(time_window - (now - oldest) + 1);
otherwise it appends now and returns none. The returned state is the
mutated self. -/
def RateLimiter.call (rl : RateLimiter) (now : Rat) :
    Except String (RateLimiter × Option Int) :=
  if rl.max_requests ≤ (rl.purge now).length then
    match rl.purge now with
    | [] => .error "IndexError"
    | oldest :: _ =>
        .ok ({ rl with requests := rl.purge now },
          some (pyTrunc (rl.time_window - (now - oldest) + 1)))
  else
    .ok ({ rl with requests := rl.purge now ++ [now] }, none)

/-- Run a sequence of RateLimiter inspections, threading the state; a raised
exception aborts the run. -/
def RateLimiter.run (rl : RateLimiter) : List Rat → RateLimiter
  | [] => rl
  | t :: ts =>
      match rl.call t with
      | .ok (rl2, _) => rl2.run ts
      | .error _ => rl

/-- The decisions produced along a sequence of RateLimiter inspections. -/
def RateLimiter.results (rl : RateLimiter) : List Rat → List (Except String (Option Int))
  | [] => []
  | t :: ts =>
      match rl.call t with
      | .ok (rl2, r) => .ok r :: rl2.results ts
      | .error e => [.error e]

/-- A Python value carried in a tool-call argument mapping. -/
inductive PyValue where
  | str (s : String)
  | int (n : Int)
  | listv (vs : List PyValue)

/-- A tool invocation record: function_call.get("name") and
function_call.get("arguments", default empty). -/
structure FunctionCall where
  name : Option String
  arguments : List (String × PyValue)

/-- FunctionGuard: mapping from tool name to argument name to the list of
blocked values for that argument. -/
structure FunctionGuard where
  blocked_params : List (String × List (String × List String))

/-- The loop body of FunctionGuard.__call__ for one (parameter, blocked
values) rule: the rule fires when the parameter is present in the call
arguments with a string value whose lowercased form is a member of the
lowercased blocked values (Python: whole-value membership test, not a
substring test); a missing parameter or a non-string value never fires. -/
def paramBlocked (arguments : List (String × PyValue)) (pr : String × List String) : Bool :=
  match arguments.lookup pr.1 with
  | some (PyValue.str v) => pr.2.any fun b => decide (pyLower v = pyLower b)
  | some _ => false
  | none => false

/-- FunctionGuard.__call__: allow unless the tool name is configured and some
constrained argument rule fires. -/
def FunctionGuard.call (g : FunctionGuard) (fc : FunctionCall) : Bool :=
  match fc.name with
  | none => true
  | some fname =>
      match g.blocked_params.lookup fname with
      | none => true
      | some param_rules => !(param_rules.any (paramBlocked fc.arguments))

/-! ## Helper lemmas -/

theorem pyUpper_data (s : String) : (pyUpper s).data = s.data.map Char.toUpper := rfl

theorem pyUpper_empty_iff (s : String) : pyUpper s = "" ↔ s = "" := by
  rw [String.ext_iff, String.ext_iff, pyUpper_data]
  simp

/-- The text extracted from a single-turn history holding one user message
with one present text part. -/
theorem lastUserMessageText_single (s : String) :
    lastUserMessageText [⟨"user", [⟨some s⟩]⟩] = if s = "" then "" else s := rfl

theorem lastUserMessageText_single_length (s : String) :
    (lastUserMessageText [⟨"user", [⟨some s⟩]⟩]).length = s.length := by
  rw [lastUserMessageText_single]
  by_cases h : s = "" <;> simp [h]

/-- If every user entry of the scanned list has a missing, absent or empty
first-part text, the reverse scan yields the empty string. -/
theorem lastUserTextRev_eq_empty : ∀ (l : List Content),
    (∀ c ∈ l, c.role = "user" → ∀ p rest, c.parts = p :: rest → p.text.getD "" = "") →
    lastUserTextRev l = ""
  | [], _ => rfl
  | c :: rest, h => by
      have hrest : lastUserTextRev rest = "" :=
        lastUserTextRev_eq_empty rest fun d hd => h d (List.mem_cons_of_mem _ hd)
      rcases hp : c.parts with _ | ⟨p, pr⟩
      · simpa [lastUserTextRev, hp] using hrest
      · by_cases hrole : c.role = "user"
        · have htext := h c (List.mem_cons_self _ _) hrole p pr hp
          rcases ht : p.text with _ | t
          · simpa [lastUserTextRev, hp, hrole, ht] using hrest
          · have : t = "" := by simpa [ht] using htext
            simpa [lastUserTextRev, hp, hrole, ht, this] using hrest
        · simpa [lastUserTextRev, hp, hrole] using hrest

theorem lastUserMessageText_eq_empty (contents : List Content)
    (h : ∀ c ∈ contents, c.role = "user" → ∀ p rest, c.parts = p :: rest → p.text.getD "" = "") :
    lastUserMessageText contents = "" :=
  lastUserTextRev_eq_empty contents.reverse fun c hc =>
    h c (List.mem_reverse.mp hc)

/-- QueryGuard rejects exactly when some blocked word, uppercased, occurs as
a contiguous substring of the uppercased latest user text. -/
theorem QueryGuard.call_rejects_iff (g : QueryGuard) (contents : List Content) :
    g.call contents ≠ none ↔
      ∃ kw ∈ g.blocked_words,
        (pyUpper kw).data <:+: (pyUpper (lastUserMessageText contents)).data := by
  unfold QueryGuard.call
  by_cases hlen : 0 < g.blocked_words.length
  · simp only [hlen, if_true]
    rcases hfind : g.blocked_words.find?
        (fun kw => decide ((pyUpper kw).data <:+: (pyUpper (lastUserMessageText contents)).data))
      with _ | kw
    · rw [List.find?_eq_none] at hfind
      simp only [ne_eq, not_true_eq_false, false_iff, not_exists]
      rintro kw ⟨hmem, hinf⟩
      have hker := hfind kw hmem
      simp only [decide_eq_true_eq] at hker
      exact hker hinf
    · have hmem := List.mem_of_find?_eq_some hfind
      have hmatch := List.find?_some hfind
      simp only [decide_eq_true_eq] at hmatch
      simp only [ne_eq, reduceCtorEq, not_false_eq_true, true_iff]
      exact ⟨kw, hmem, hmatch⟩
  · have : g.blocked_words = [] := by
      rw [← List.length_eq_zero]; omega
    simp [this]

/-- On a rejection, QueryGuard returns the canned message for the first
matching blocked word, which embeds that word. -/
theorem QueryGuard.call_eq_some (g : QueryGuard) (contents : List Content) (msg : String)
    (h : g.call contents = some msg) :
    ∃ kw ∈ g.blocked_words,
      (pyUpper kw).data <:+: (pyUpper (lastUserMessageText contents)).data ∧
      msg = blockedKeywordMessage kw := by
  unfold QueryGuard.call at h
  by_cases hlen : 0 < g.blocked_words.length
  · simp only [hlen, if_true] at h
    rcases hfind : g.blocked_words.find?
        (fun kw => decide ((pyUpper kw).data <:+: (pyUpper (lastUserMessageText contents)).data))
      with _ | kw
    · rw [hfind] at h; cases h
    · rw [hfind] at h
      have hmem := List.mem_of_find?_eq_some hfind
      have hmatch := List.find?_some hfind
      simp only [decide_eq_true_eq] at hmatch
      exact ⟨kw, hmem, hmatch, by simpa using h.symm⟩
  · simp [hlen] at h

/-- The keyword is embedded in the canned rejection message. -/
theorem blockedKeywordMessage_embeds (kw : String) :
    kw.data <:+: (blockedKeywordMessage kw).data := by
  unfold blockedKeywordMessage
  rw [String.data_append, String.data_append]
  exact List.infix_append _ _ _

/-- TokenGuard rejects exactly when the estimate strictly exceeds the
selected ceiling. -/
theorem TokenGuard.call_exceeds_iff (g : TokenGuard) (contents : List Content) :
    g.call contents ≠ none ↔
      g.tokenLimit < (lastUserMessageText contents).length / g.chars_per_token := by
  unfold TokenGuard.call
  by_cases h : g.tokenLimit < (lastUserMessageText contents).length / g.chars_per_token <;>
    simp [h]

/-- One rule of FunctionGuard fires exactly on a present string-valued
argument equal, after lowercasing, to some blocked value. -/
theorem paramBlocked_eq_true_iff (arguments : List (String × PyValue)) (pr : String × List String) :
    paramBlocked arguments pr = true ↔
      ∃ s, arguments.lookup pr.1 = some (PyValue.str s) ∧
        ∃ b ∈ pr.2, pyLower s = pyLower b := by
  unfold paramBlocked
  rcases h : arguments.lookup pr.1 with _ | v
  · simp
  · rcases v with s | n | vs
    · simp [List.any_eq_true]
    · simp
    · simp

/-- FunctionGuard blocks exactly when the tool name is configured and some
configured rule fires on the call arguments. -/
theorem FunctionGuard.call_eq_false_iff (g : FunctionGuard) (fc : FunctionCall) :
    g.call fc = false ↔
      ∃ fname rules, fc.name = some fname ∧
        g.blocked_params.lookup fname = some rules ∧
        ∃ pr ∈ rules, ∃ s, fc.arguments.lookup pr.1 = some (PyValue.str s) ∧
          ∃ b ∈ pr.2, pyLower s = pyLower b := by
  unfold FunctionGuard.call
  rcases hname : fc.name with _ | fname
  · simp
  · rcases hrules : g.blocked_params.lookup fname with _ | rules
    · simp [hrules]
    · simp only [hrules]
      rw [Bool.not_eq_false', List.any_eq_true]
      constructor
      · rintro ⟨pr, hpr, hfire⟩
        exact ⟨fname, rules, rfl, hrules, pr, hpr,
          (paramBlocked_eq_true_iff _ _).mp hfire⟩
      · rintro ⟨fname2, rules2, hname2, hrules2, pr, hpr, hrest⟩
        obtain rfl : fname = fname2 := by injection hname2
        rw [hrules] at hrules2
        obtain rfl : rules = rules2 := by injection hrules2
        exact ⟨pr, hpr, (paramBlocked_eq_true_iff _ _).mpr hrest⟩

/-! ## RateLimiter lemmas -/

/-- The head surviving a threshold dropWhile lies strictly above the
threshold. -/
theorem dropWhile_head_lt :
    ∀ (l : List Rat) (c t : Rat) (ts : List Rat),
      l.dropWhile (fun u => decide (u ≤ c)) = t :: ts → c < t
  | [], _, _, _, h => by cases h
  | x :: xs, c, t, ts, h => by
      rw [List.dropWhile_cons] at h
      by_cases hx : x ≤ c
      · exact dropWhile_head_lt xs c t ts (by simpa [hx] using h)
      · simp only [hx, decide_False, if_false] at h
        cases h
        exact lt_of_not_le hx

/-- A boolean-false predicate head keeps a replicate list intact under
dropWhile. -/
theorem dropWhile_replicate_false {α : Type} (p : α → Bool) (a : α) (h : p a = false) :
    ∀ j, (List.replicate j a).dropWhile p = List.replicate j a
  | 0 => rfl
  | j + 1 => by
      rw [List.replicate_succ, List.dropWhile_cons, h]
      simp

/-- A boolean-true predicate head empties a replicate list under
dropWhile. -/
theorem dropWhile_replicate_true {α : Type} (p : α → Bool) (a : α) (h : p a = true) :
    ∀ j, (List.replicate j a).dropWhile p = []
  | 0 => rfl
  | j + 1 => by
      rw [List.replicate_succ, List.dropWhile_cons, h]
      simpa using dropWhile_replicate_true p a h j

theorem RateLimiter.purge_suffix (rl : RateLimiter) (now : Rat) :
    rl.purge now <:+ rl.requests :=
  List.dropWhile_suffix _

theorem RateLimiter.purge_sorted (rl : RateLimiter) (now : Rat)
    (hs : rl.requests.Sorted (· ≤ ·)) : (rl.purge now).Sorted (· ≤ ·) :=
  List.Pairwise.sublist (rl.purge_suffix now).sublist hs

theorem RateLimiter.purge_length_le (rl : RateLimiter) (now : Rat) :
    (rl.purge now).length ≤ rl.requests.length :=
  (rl.purge_suffix now).sublist.length_le

theorem RateLimiter.mem_purge (rl : RateLimiter) (now : Rat) {t : Rat}
    (h : t ∈ rl.purge now) : t ∈ rl.requests :=
  (rl.purge_suffix now).sublist.mem h

/-- On a sorted deque, every timestamp surviving the purge lies strictly
inside the window. -/
theorem RateLimiter.purge_mem_window (rl : RateLimiter) (now : Rat)
    (hs : rl.requests.Sorted (· ≤ ·)) :
    ∀ t ∈ rl.purge now, now - rl.time_window < t := by
  rcases hp : rl.purge now with _ | ⟨t0, ts⟩
  · intro t ht; cases ht
  · have hh : now - rl.time_window < t0 := dropWhile_head_lt rl.requests _ t0 ts hp
    have hsp : (t0 :: ts).Sorted (· ≤ ·) := hp ▸ rl.purge_sorted now hs
    rw [List.sorted_cons] at hsp
    intro t ht
    rcases List.mem_cons.mp ht with rfl | ht2
    · exact hh
    · exact lt_of_lt_of_le hh (hsp.1 t ht2)

/-- One RateLimiter inspection from a well-formed state never raises, keeps
the deque sorted with all entries at or before the inspection instant,
keeps the count at or below the quota, and purges every stale entry before
deciding. -/
theorem RateLimiter.call_step (rl : RateLimiter) (now : Rat)
    (hK : 1 ≤ rl.max_requests)
    (hs : rl.requests.Sorted (· ≤ ·))
    (hub : ∀ t ∈ rl.requests, t ≤ now)
    (hlen : rl.requests.length ≤ rl.max_requests) :
    ∃ rl2 r, rl.call now = .ok (rl2, r) ∧
      rl2.max_requests = rl.max_requests ∧
      rl2.time_window = rl.time_window ∧
      rl2.requests.Sorted (· ≤ ·) ∧
      (∀ t ∈ rl2.requests, t ≤ now) ∧
      rl2.requests.length ≤ rl.max_requests ∧
      (∀ t ∈ rl.purge now, now - rl.time_window < t) := by
  have hwin := rl.purge_mem_window now hs
  have hsorted := rl.purge_sorted now hs
  have hple := rl.purge_length_le now
  have hubp : ∀ t ∈ rl.purge now, t ≤ now := fun t ht => hub t (rl.mem_purge now ht)
  by_cases hq : rl.max_requests ≤ (rl.purge now).length
  · rcases hp : rl.purge now with _ | ⟨t0, ts⟩
    · rw [hp] at hq; simp at hq; omega
    · refine ⟨{ rl with requests := t0 :: ts }, some (pyTrunc (rl.time_window - (now - t0) + 1)),
        ?_, rfl, rfl, hp ▸ hsorted, hp ▸ hubp, ?_, hp ▸ hwin⟩
      · unfold RateLimiter.call
        rw [hp] at hq ⊢
        simp only [hq, if_true]
      · calc (t0 :: ts).length = (rl.purge now).length := by rw [hp]
          _ ≤ rl.requests.length := hple
          _ ≤ rl.max_requests := hlen
  · refine ⟨{ rl with requests := rl.purge now ++ [now] }, none, ?_, rfl, rfl, ?_, ?_, ?_, hwin⟩
    · unfold RateLimiter.call
      simp only [hq, if_false]
    · rw [List.Sorted, List.pairwise_append]
      exact ⟨hsorted, List.pairwise_singleton _ _,
        fun a ha b hb => (List.mem_singleton.mp hb) ▸ hubp a ha⟩
    · intro t ht
      rcases List.mem_append.mp ht with ht2 | ht2
      · exact hubp t ht2
      · exact (List.mem_singleton.mp ht2).le
    · rw [List.length_append, List.length_singleton]
      omega

/-- Unfolding equation for run on a successful step. -/
theorem RateLimiter.run_cons (rl : RateLimiter) (u : Rat) (ts : List Rat)
    (rl2 : RateLimiter) (r : Option Int) (h : rl.call u = .ok (rl2, r)) :
    rl.run (u :: ts) = rl2.run ts := by
  show (match rl.call u with
    | .ok (s, _) => s.run ts
    | .error _ => rl) = rl2.run ts
  rw [h]

/-- Unfolding equation for results on a successful step. -/
theorem RateLimiter.results_cons (rl : RateLimiter) (u : Rat) (ts : List Rat)
    (rl2 : RateLimiter) (r : Option Int) (h : rl.call u = .ok (rl2, r)) :
    rl.results (u :: ts) = .ok r :: rl2.results ts := by
  show (match rl.call u with
    | .ok (s, r2) => .ok r2 :: s.results ts
    | .error e => [.error e]) = .ok r :: rl2.results ts
  rw [h]

/-- Running a RateLimiter from a well-formed state over a sorted batch of
instants, all at or below a bound and at or after every stored timestamp,
preserves configuration, sortedness, the quota bound and the time bound. -/
theorem RateLimiter.run_inv :
    ∀ (ts : List Rat) (rl : RateLimiter) (B : Rat),
      1 ≤ rl.max_requests →
      rl.requests.Sorted (· ≤ ·) →
      rl.requests.length ≤ rl.max_requests →
      (∀ t ∈ rl.requests, ∀ u ∈ ts, t ≤ u) →
      (∀ t ∈ rl.requests, t ≤ B) →
      ts.Sorted (· ≤ ·) →
      (∀ u ∈ ts, u ≤ B) →
      (rl.run ts).max_requests = rl.max_requests ∧
      (rl.run ts).time_window = rl.time_window ∧
      (rl.run ts).requests.Sorted (· ≤ ·) ∧
      (rl.run ts).requests.length ≤ rl.max_requests ∧
      (∀ t ∈ (rl.run ts).requests, t ≤ B)
  | [], rl, B, _, hs, hlen, _, hB, _, _ => ⟨rfl, rfl, hs, hlen, hB⟩
  | u :: ts, rl, B, hK, hs, hlen, hconn, hB, hts, htsB => by
      rw [List.sorted_cons] at hts
      have hub : ∀ t ∈ rl.requests, t ≤ u :=
        fun t ht => hconn t ht u (List.mem_cons_self _ _)
      obtain ⟨rl2, r, hcall, hmax, hwin, hs2, hub2, hlen2, _⟩ :=
        rl.call_step u hK hs hub hlen
      have hrun : rl.run (u :: ts) = rl2.run ts :=
        rl.run_cons u ts rl2 r hcall
      have hconn2 : ∀ t ∈ rl2.requests, ∀ v ∈ ts, t ≤ v :=
        fun t ht v hv => le_trans (hub2 t ht) (hts.1 v hv)
      have hB2 : ∀ t ∈ rl2.requests, t ≤ B :=
        fun t ht => le_trans (hub2 t ht) (htsB u (List.mem_cons_self _ _))
      have ih := RateLimiter.run_inv ts rl2 B (hmax ▸ hK) hs2 (hmax ▸ hlen2)
        hconn2 hB2 hts.2 (fun v hv => htsB v (List.mem_cons_of_mem _ hv))
      rw [hrun]
      exact ⟨ih.1.trans hmax, ih.2.1.trans hwin, ih.2.2.1, le_of_le_of_eq ih.2.2.2.1 hmax,
        ih.2.2.2.2⟩

/-- Running a fresh limiter with positive window over j + i coincident
instants, the first j already admitted: all i remaining are admitted. -/
theorem RateLimiter.run_replicate (K : Nat) (W t : Rat) (hW : 0 < W) :
    ∀ (i j : Nat), i + j ≤ K →
      (RateLimiter.mk K W (List.replicate j t)).results (List.replicate i t) =
        List.replicate i (.ok none) ∧
      (RateLimiter.mk K W (List.replicate j t)).run (List.replicate i t) =
        RateLimiter.mk K W (List.replicate (j + i) t)
  | 0, j, _ => by constructor <;> rfl
  | i + 1, j, hle => by
      have hfalse : (fun u => decide (u ≤ t - W)) t = false := by
        simp only [decide_eq_false_iff_not]
        intro habs
        linarith
      have hpurge : (RateLimiter.mk K W (List.replicate j t)).purge t = List.replicate j t := by
        show List.dropWhile (fun u => decide (u ≤ t - W)) (List.replicate j t) =
          List.replicate j t
        exact dropWhile_replicate_false (fun u => decide (u ≤ t - W)) t hfalse j
      have hcall : (RateLimiter.mk K W (List.replicate j t)).call t =
          .ok (RateLimiter.mk K W (List.replicate (j + 1) t), none) := by
        unfold RateLimiter.call
        rw [hpurge]
        have hjK : ¬ K ≤ (List.replicate j t).length := by
          rw [List.length_replicate]; omega
        rw [if_neg hjK, ← List.replicate_succ' j t]
      have ih := RateLimiter.run_replicate K W t hW i (j + 1) (by omega)
      constructor
      · rw [List.replicate_succ,
          RateLimiter.results_cons _ t _ _ none hcall, ih.1, List.replicate_succ]
      · rw [List.replicate_succ, RateLimiter.run_cons _ t _ _ none hcall, ih.2]
        have hji : j + 1 + i = j + (i + 1) := by omega
        rw [hji]

/-! ## Claim theorems: RateLimiter -/

/-- Claim C1: the specification demands that a RateLimiter configured with
max_requests = 0 rejects every request, completing normally without any
crash even when the stored timestamp sequence is empty. The code violates
this: on the very first inspection of a fresh zero-quota limiter the purged
deque is empty, the quota test 0 <= 0 succeeds, and the wait-time
computation reads requests[0] of the empty deque, raising IndexError
instead of returning a Rejection. -/
theorem rateLimiter_zero_quota_crash :
    (RateLimiter.make 0 60).call 0 = .error "IndexError" := rfl

/-- Claim C2, counterexample: the wait time reported on a rejection is not
ceil(window_seconds - (now - oldest)) + 1. With window 60, one stored
timestamp 0, quota 1 and now = 1/2, the code reports
int(60 - 1/2 + 1) = 60, while the claimed formula gives
ceil(60 - 1/2) + 1 = 61. -/
theorem rateLimiter_ceil_formula_counterexample :
    ∃ s : RateLimiter, ∃ w : Int,
      (RateLimiter.mk 1 60 [0]).call (1/2) = .ok (s, some w) ∧
      w ≠ ⌈(60 : Rat) - ((1:Rat)/2 - 0)⌉ + 1 := by
  refine ⟨RateLimiter.mk 1 60 [0], 60, ?_, ?_⟩
  · have hpurge : (RateLimiter.mk 1 60 [0]).purge (1/2) = [0] := by
      show List.dropWhile (fun u => decide (u ≤ (1:Rat)/2 - 60)) [0] = [0]
      rw [List.dropWhile_cons]
      norm_num
    have htr : pyTrunc ((60:Rat) - ((1:Rat)/2 - 0) + 1) = 60 := by
      unfold pyTrunc
      rw [if_neg (by norm_num), Int.floor_eq_iff]
      norm_num
    unfold RateLimiter.call
    rw [hpurge, if_pos (by norm_num)]
    simp only [htr]
  · have : ⌈(60 : Rat) - ((1:Rat)/2 - 0)⌉ = 60 := by
      rw [Int.ceil_eq_iff]
      norm_num
    rw [this]
    norm_num

/-- Claim C2, amended: whenever the RateLimiter rejects (after purging, the
remaining count is at least max_requests, with a nonempty remainder), the
reported wait time is the floor (Python int truncation of a positive
quantity) of window_seconds - (now - oldest_remaining) + 1; otherwise the
call appends now to the purged sequence and returns none. -/
theorem rateLimiter_wait_time_floor (rl : RateLimiter) (now : Rat) :
    (∀ oldest rest, rl.purge now = oldest :: rest →
        rl.max_requests ≤ (oldest :: rest).length →
        rl.call now = .ok ({ rl with requests := oldest :: rest },
          some ⌊rl.time_window - (now - oldest) + 1⌋)) ∧
    ((rl.purge now).length < rl.max_requests →
        rl.call now = .ok ({ rl with requests := rl.purge now ++ [now] }, none)) := by
  constructor
  · intro oldest rest hp hq
    have hp2 : rl.requests.dropWhile (fun u => decide (u ≤ now - rl.time_window)) =
        oldest :: rest := hp
    have hlt : now - rl.time_window < oldest :=
      dropWhile_head_lt rl.requests _ oldest rest hp2
    have harg : (0:Rat) ≤ rl.time_window - (now - oldest) + 1 := by linarith
    have htr : pyTrunc (rl.time_window - (now - oldest) + 1) =
        ⌊rl.time_window - (now - oldest) + 1⌋ := by
      unfold pyTrunc
      rw [if_neg (not_lt.mpr harg)]
    unfold RateLimiter.call
    rw [hp, if_pos hq]
    simp only [htr]
  · intro hq
    unfold RateLimiter.call
    rw [if_neg (not_le.mpr hq)]

/-- Witness for C2: the amended formula evaluated on the counterexample
input, via the theorem. -/
theorem rateLimiter_wait_time_floor_witness :
    (RateLimiter.mk 1 60 [0]).call (1/2) =
      .ok (RateLimiter.mk 1 60 [0], some ⌊(60:Rat) - ((1:Rat)/2 - 0) + 1⌋) := by
  have hpurge : (RateLimiter.mk 1 60 [0]).purge (1/2) = [0] := by
    show List.dropWhile (fun u => decide (u ≤ (1:Rat)/2 - 60)) [0] = [0]
    rw [List.dropWhile_cons]
    norm_num
  exact (rateLimiter_wait_time_floor (RateLimiter.mk 1 60 [0]) (1/2)).1 0 [] hpurge
    (by norm_num)

/-- Claim C3: for quota at least 1 and inspections at non-decreasing
instants starting from a fresh limiter, after each call the stored sequence
is sorted oldest first, every entry older than the window was purged before
the admission decision, and the number of stored timestamps inside
[now - window, now] never exceeds the quota (the whole store does not). -/
theorem rateLimiter_sliding_window_invariant (K : Nat) (W : Rat) (pre : List Rat) (now : Rat)
    (hK : 1 ≤ K) (hmono : (pre ++ [now]).Sorted (· ≤ ·)) :
    ∃ rl2 r, ((RateLimiter.make K W).run pre).call now = .ok (rl2, r) ∧
      (∀ t ∈ ((RateLimiter.make K W).run pre).purge now, now - W < t) ∧
      rl2.requests.Sorted (· ≤ ·) ∧
      rl2.requests.length ≤ K ∧
      (rl2.requests.filter fun t => decide (now - W ≤ t) && decide (t ≤ now)).length ≤ K := by
  rw [List.Sorted, List.pairwise_append] at hmono
  have hpre : pre.Sorted (· ≤ ·) := hmono.1
  have hpreB : ∀ u ∈ pre, u ≤ now :=
    fun u hu => hmono.2.2 u hu now (List.mem_singleton.mpr rfl)
  have hinv := RateLimiter.run_inv pre (RateLimiter.make K W) now
    hK List.sorted_nil (Nat.zero_le K)
    (fun t ht => absurd ht (List.not_mem_nil t))
    (fun t ht => absurd ht (List.not_mem_nil t)) hpre hpreB
  obtain ⟨hmax, hwin, hsort, hlen, hub⟩ := hinv
  have hmaxK : ((RateLimiter.make K W).run pre).max_requests = K := hmax
  have hwinK : ((RateLimiter.make K W).run pre).time_window = W := hwin
  obtain ⟨rl2, r, hcall, hmax2, hwin2, hs2, _, hlen2, hpurge⟩ :=
    ((RateLimiter.make K W).run pre).call_step now (by rw [hmaxK]; exact hK) hsort hub
      (by rw [hmaxK]; exact hlen)
  refine ⟨rl2, r, hcall, ?_, hs2, ?_, ?_⟩
  · intro t ht
    have hb := hpurge t ht
    rwa [hwinK] at hb
  · rw [← hmaxK]
    exact hlen2
  · calc (rl2.requests.filter fun t => decide (now - W ≤ t) && decide (t ≤ now)).length
        ≤ rl2.requests.length := List.length_filter_le _ _
    _ ≤ K := by rw [← hmaxK]; exact hlen2

/-- Witness for C3: quota 1, window 60, one earlier call at 0, now 1. -/
theorem rateLimiter_sliding_window_invariant_witness :
    ∃ rl2 r, ((RateLimiter.make 1 60).run [0]).call 1 = .ok (rl2, r) ∧
      (∀ t ∈ ((RateLimiter.make 1 60).run [0]).purge 1, (1:Rat) - 60 < t) ∧
      rl2.requests.Sorted (· ≤ ·) ∧
      rl2.requests.length ≤ 1 ∧
      (rl2.requests.filter fun t => decide ((1:Rat) - 60 ≤ t) && decide (t ≤ (1:Rat))).length ≤ 1 :=
  rateLimiter_sliding_window_invariant 1 60 [0] 1 le_rfl
    (by simp [List.sorted_cons])

/-- Claim C4: a fresh limiter with quota K at least 1 and positive window W
admits K coincident requests, rejects the (K+1)th at the same instant with
a strictly positive wait time and unchanged state, and admits again at any
instant at least W past the first admitted request. -/
theorem rateLimiter_quota_window (K : Nat) (W t t2 : Rat)
    (hK : 1 ≤ K) (hW : 0 < W) (ht2 : t + W ≤ t2) :
    (RateLimiter.make K W).results (List.replicate K t) = List.replicate K (.ok none) ∧
    (RateLimiter.make K W).run (List.replicate K t) =
      RateLimiter.mk K W (List.replicate K t) ∧
    (∃ w : Int, 0 < w ∧
      (RateLimiter.mk K W (List.replicate K t)).call t =
        .ok (RateLimiter.mk K W (List.replicate K t), some w)) ∧
    (RateLimiter.mk K W (List.replicate K t)).call t2 =
      .ok (RateLimiter.mk K W [t2], none) := by
  obtain ⟨hres, hrun⟩ := RateLimiter.run_replicate K W t hW K 0 (by omega)
  refine ⟨hres, by simpa using hrun, ?_, ?_⟩
  · have hfalse : (fun u => decide (u ≤ t - W)) t = false := by
      simp only [decide_eq_false_iff_not]
      intro habs
      linarith
    have hpurge : (RateLimiter.mk K W (List.replicate K t)).purge t = List.replicate K t := by
      show List.dropWhile (fun u => decide (u ≤ t - W)) (List.replicate K t) =
        List.replicate K t
      exact dropWhile_replicate_false (fun u => decide (u ≤ t - W)) t hfalse K
    obtain ⟨K2, rfl⟩ : ∃ K2, K = K2 + 1 := ⟨K - 1, by omega⟩
    refine ⟨pyTrunc (W - (t - t) + 1), ?_, ?_⟩
    · unfold pyTrunc
      rw [if_neg (by intro h; absurd h; push_neg; linarith)]
      have : (1:Int) ≤ ⌊W - (t - t) + 1⌋ := by
        rw [Int.le_floor]
        push_cast
        linarith
      omega
    · unfold RateLimiter.call
      rw [hpurge, if_pos (by rw [List.length_replicate]), List.replicate_succ]
  · have htrue : (fun u => decide (u ≤ t2 - W)) t = true := by
      simp only [decide_eq_true_eq]
      linarith
    have hpurge : (RateLimiter.mk K W (List.replicate K t)).purge t2 = [] := by
      show List.dropWhile (fun u => decide (u ≤ t2 - W)) (List.replicate K t) = []
      exact dropWhile_replicate_true (fun u => decide (u ≤ t2 - W)) t htrue K
    unfold RateLimiter.call
    rw [hpurge, if_neg (by simp; omega)]
    rfl

/-- Witness for C4: quota 1, window 1, two calls at 0 and one at 1. -/
theorem rateLimiter_quota_window_witness :
    (RateLimiter.make 1 1).results (List.replicate 1 (0:Rat)) =
      List.replicate 1 (.ok none) ∧
    (RateLimiter.make 1 1).run (List.replicate 1 (0:Rat)) =
      RateLimiter.mk 1 1 (List.replicate 1 (0:Rat)) ∧
    (∃ w : Int, 0 < w ∧
      (RateLimiter.mk 1 1 (List.replicate 1 (0:Rat))).call 0 =
        .ok (RateLimiter.mk 1 1 (List.replicate 1 (0:Rat)), some w)) ∧
    (RateLimiter.mk 1 1 (List.replicate 1 (0:Rat))).call 1 =
      .ok (RateLimiter.mk 1 1 [1], none) :=
  rateLimiter_quota_window 1 1 0 1 le_rfl (by norm_num) (by norm_num)

/-! ## Claim theorems: TokenGuard -/

/-- Claim C5: the estimator computes floor(length / 4) tokens of the latest
user text and rejects exactly when the estimate strictly exceeds the
selected ceiling; with ceiling N a message of exactly 4N characters passes
and a message of 4N + 4 characters is rejected. -/
theorem tokenGuard_boundary (N D : Nat) (s t : String)
    (hs : s.length = 4 * N) (ht : t.length = 4 * N + 4) :
    (∀ (g : TokenGuard) (contents : List Content), g.chars_per_token = 4 →
        (g.call contents ≠ none ↔
          g.tokenLimit < (lastUserMessageText contents).length / 4)) ∧
    (TokenGuard.make N D).call [⟨"user", [⟨some s⟩]⟩] = none ∧
    (TokenGuard.make N D).call [⟨"user", [⟨some t⟩]⟩] ≠ none := by
  refine ⟨?_, ?_, ?_⟩
  · intro g contents h4
    rw [TokenGuard.call_exceeds_iff, h4]
  · by_cases hcall : (TokenGuard.make N D).call [⟨"user", [⟨some s⟩]⟩] = none
    · exact hcall
    · exfalso
      have hlt := (TokenGuard.call_exceeds_iff (TokenGuard.make N D) _).mp hcall
      have hcpt : (TokenGuard.make N D).chars_per_token = 4 := rfl
      have hlim : (TokenGuard.make N D).tokenLimit = N := rfl
      rw [hcpt, hlim, lastUserMessageText_single_length, hs,
        Nat.mul_div_cancel_left _ (by norm_num)] at hlt
      exact lt_irrefl N hlt
  · rw [TokenGuard.call_exceeds_iff]
    have hcpt : (TokenGuard.make N D).chars_per_token = 4 := rfl
    have hlim : (TokenGuard.make N D).tokenLimit = N := rfl
    rw [hcpt, hlim, lastUserMessageText_single_length, ht]
    have hdiv : (4 * N + 4) / 4 = N + 1 := by
      rw [show 4 * N + 4 = 4 * (N + 1) by ring, Nat.mul_div_cancel_left _ (by norm_num)]
    rw [hdiv]
    omega

/-- Witness for C5: ceiling 1, a 4-character message passes, an 8-character
message is rejected. -/
theorem tokenGuard_boundary_witness :
    (∀ (g : TokenGuard) (contents : List Content), g.chars_per_token = 4 →
        (g.call contents ≠ none ↔
          g.tokenLimit < (lastUserMessageText contents).length / 4)) ∧
    (TokenGuard.make 1 5000).call [⟨"user", [⟨some "abcd"⟩]⟩] = none ∧
    (TokenGuard.make 1 5000).call [⟨"user", [⟨some "abcdefgh"⟩]⟩] ≠ none :=
  tokenGuard_boundary 1 5000 "abcd" "abcdefgh" (by decide) (by decide)

/-- Claim C6: the ceiling is selected by the document-mode flag, and a
latest user message rejected in direct-message mode is accepted in
bulk-upload mode whenever its estimate fits under the bulk ceiling. -/
theorem tokenGuard_mode_selection (g : TokenGuard) (contents : List Content)
    (hreject : (g.set_document_mode false).call contents ≠ none)
    (hfits : (lastUserMessageText contents).length / g.chars_per_token ≤
      g.document_upload_max_tokens) :
    (∀ (g2 : TokenGuard) (b : Bool), (g2.set_document_mode b).tokenLimit =
        if b then g2.document_upload_max_tokens else g2.max_tokens) ∧
    (g.set_document_mode true).call contents = none := by
  constructor
  · intro g2 b
    cases b <;> rfl
  · by_cases h : (g.set_document_mode true).call contents = none
    · exact h
    · exfalso
      have hlt := (TokenGuard.call_exceeds_iff _ _).mp h
      have hl : (g.set_document_mode true).tokenLimit = g.document_upload_max_tokens := rfl
      have hc : (g.set_document_mode true).chars_per_token = g.chars_per_token := rfl
      rw [hl, hc] at hlt
      omega

/-- Witness for C6: the spec scenario, a 30-character message against
direct ceiling 5 and bulk ceiling 5000. -/
theorem tokenGuard_mode_selection_witness :
    (∀ (g2 : TokenGuard) (b : Bool), (g2.set_document_mode b).tokenLimit =
        if b then g2.document_upload_max_tokens else g2.max_tokens) ∧
    ((TokenGuard.make 5 5000).set_document_mode true).call
      [⟨"user", [⟨some "123456789012345678901234567890"⟩]⟩] = none :=
  tokenGuard_mode_selection (TokenGuard.make 5 5000)
    [⟨"user", [⟨some "123456789012345678901234567890"⟩]⟩] (by decide) (by decide)

/-! ## Claim theorems: QueryGuard -/

/-- Claim C7: QueryGuard rejects exactly when some blocked word occurs
case-insensitively as a substring of the latest user text; any casing
variant of a blocked word embedded in the text triggers rejection; the
rejection message embeds the matched word; an empty blocked list always
passes. -/
theorem queryGuard_substring_match (g : QueryGuard) (contents : List Content) :
    (g.call contents ≠ none ↔
      ∃ kw ∈ g.blocked_words,
        (pyUpper kw).data <:+: (pyUpper (lastUserMessageText contents)).data) ∧
    (∀ kw ∈ g.blocked_words, ∀ v : String, pyUpper v = pyUpper kw →
      v.data <:+: (lastUserMessageText contents).data → g.call contents ≠ none) ∧
    (∀ msg, g.call contents = some msg →
      ∃ kw ∈ g.blocked_words, kw.data <:+: msg.data) ∧
    QueryGuard.call ⟨[]⟩ contents = none := by
  refine ⟨QueryGuard.call_rejects_iff g contents, ?_, ?_, rfl⟩
  · intro kw hkw v hv hinf
    rw [QueryGuard.call_rejects_iff]
    refine ⟨kw, hkw, ?_⟩
    rw [← hv, pyUpper_data, pyUpper_data]
    exact List.IsInfix.map Char.toUpper hinf
  · intro msg hmsg
    obtain ⟨kw, hkw, _, rfl⟩ := QueryGuard.call_eq_some g contents msg hmsg
    exact ⟨kw, hkw, blockedKeywordMessage_embeds kw⟩

/-- Witness for C7: a blocked word in different casing embedded in a
message is rejected. -/
theorem queryGuard_substring_match_witness :
    QueryGuard.call ⟨["confidential"]⟩
      [⟨"user", [⟨some "Please share CONFIDENTIAL files"⟩]⟩] ≠ none :=
  ((queryGuard_substring_match ⟨["confidential"]⟩
      [⟨"user", [⟨some "Please share CONFIDENTIAL files"⟩]⟩]).1).mpr
    ⟨"confidential", by decide, by decide⟩

/-! ## Claim theorems: FunctionGuard -/

/-- Claim C8: FunctionGuard blocks exactly on a whole-value case-insensitive
equality match between a present constrained argument (a string) and a
blocked value; an unconfigured tool name is always allowed, and a value
that merely contains a blocked value without being equal to it does not
block. -/
theorem functionGuard_whole_value_match (g : FunctionGuard) (fc : FunctionCall) :
    (g.call fc = false ↔
      ∃ fname rules, fc.name = some fname ∧
        g.blocked_params.lookup fname = some rules ∧
        ∃ pr ∈ rules, ∃ s, fc.arguments.lookup pr.1 = some (PyValue.str s) ∧
          ∃ b ∈ pr.2, pyLower s = pyLower b) ∧
    (∀ fname, fc.name = some fname → g.blocked_params.lookup fname = none →
      g.call fc = true) := by
  refine ⟨FunctionGuard.call_eq_false_iff g fc, ?_⟩
  intro fname hname hrules
  unfold FunctionGuard.call
  simp only [hname, hrules]

/-- Witness for C8: an argument value that contains, but does not equal, a
blocked value is allowed. -/
theorem functionGuard_whole_value_match_witness :
    FunctionGuard.call ⟨[("get_weather", [("location", ["Area51"])])]⟩
      ⟨some "search_web", [("query", PyValue.str "Area51")]⟩ = true :=
  (functionGuard_whole_value_match ⟨[("get_weather", [("location", ["Area51"])])]⟩
      ⟨some "search_web", [("query", PyValue.str "Area51")]⟩).2 "search_web" rfl (by decide)

/-- A successful association-list lookup exhibits a stored pair. -/
theorem lookup_mem_pair {β : Type} :
    ∀ (l : List (String × β)) (k : String) (v : β),
      l.lookup k = some v → ∃ k2, (k2, v) ∈ l
  | [], _, _, h => by cases h
  | (a, b) :: es, k, v, h => by
      rw [List.lookup_cons] at h
      cases hk : k == a with
      | true =>
          rw [hk] at h
          simp only [Option.some.injEq] at h
          exact ⟨a, by rw [← h]; exact List.mem_cons_self _ _⟩
      | false =>
          rw [hk] at h
          obtain ⟨k2, hm⟩ := lookup_mem_pair es k v h
          exact ⟨k2, List.mem_cons_of_mem _ hm⟩

/-- Claim C10: a tool call whose argument values are all non-strings is
always allowed regardless of configuration, and any blocked call exhibits
a constrained argument with a string value: only string argument values
are ever compared against blocked values. -/
theorem functionGuard_nonstring_allowed (g : FunctionGuard) (fc : FunctionCall) :
    ((∀ pv ∈ fc.arguments, ∀ s, pv.2 ≠ PyValue.str s) → g.call fc = true) ∧
    (g.call fc = false →
      ∃ param s, fc.arguments.lookup param = some (PyValue.str s)) := by
  have hiff := FunctionGuard.call_eq_false_iff g fc
  constructor
  · intro h
    cases hcall : g.call fc with
    | false =>
        exfalso
        obtain ⟨fname, rules, _, _, pr, _, s, hlk, _⟩ := hiff.mp hcall
        obtain ⟨k2, hmem⟩ := lookup_mem_pair fc.arguments pr.1 _ hlk
        exact h (k2, PyValue.str s) hmem s rfl
    | true => rfl
  · intro hfalse
    obtain ⟨fname, rules, _, _, pr, _, s, hlk, _⟩ := hiff.mp hfalse
    exact ⟨pr.1, s, hlk⟩

/-- Witness for C10: a constrained argument carrying an integer is
allowed. -/
theorem functionGuard_nonstring_allowed_witness :
    FunctionGuard.call ⟨[("get_weather", [("location", ["Area51"])])]⟩
      ⟨some "get_weather", [("location", PyValue.int 51)]⟩ = true :=
  (functionGuard_nonstring_allowed ⟨[("get_weather", [("location", ["Area51"])])]⟩
      ⟨some "get_weather", [("location", PyValue.int 51)]⟩).1 (by
    intro pv hpv s
    rcases List.mem_singleton.mp hpv with rfl
    simp)

/-! ## Claim theorems: defensive handling of missing user text -/

/-- Claim C9: when the history is empty, has no user entry, or all user
entries have absent or empty first-part text, both filters treat the
latest user text as the empty string and reach a normal decision: the
estimator computes 0 tokens and passes, and the keyword filter passes
unless the empty string itself is a blocked word. -/
theorem guards_missing_user_text (q : QueryGuard) (g : TokenGuard) (contents : List Content)
    (h : ∀ c ∈ contents, c.role = "user" → ∀ p rest, c.parts = p :: rest →
      p.text.getD "" = "") :
    lastUserMessageText contents = "" ∧
    (lastUserMessageText contents).length / g.chars_per_token = 0 ∧
    g.call contents = none ∧
    (q.call contents = none ↔ "" ∉ q.blocked_words) := by
  have htext := lastUserMessageText_eq_empty contents h
  refine ⟨htext, ?_, ?_, ?_⟩
  · rw [htext]
    exact Nat.zero_div _
  · by_cases hc : g.call contents = none
    · exact hc
    · exfalso
      have hlt := (TokenGuard.call_exceeds_iff g contents).mp hc
      rw [htext] at hlt
      simp at hlt
  · constructor
    · intro hnone hmem
      have hne : q.call contents ≠ none := by
        rw [QueryGuard.call_rejects_iff]
        refine ⟨"", hmem, ?_⟩
        rw [htext]
      exact hne hnone
    · intro hnot
      by_cases hc : q.call contents = none
      · exact hc
      · exfalso
        obtain ⟨kw, hkw, hinf⟩ := (QueryGuard.call_rejects_iff q contents).mp hc
        rw [htext] at hinf
        have h0 : (pyUpper "").data = ([] : List Char) := rfl
        rw [h0, List.infix_nil] at hinf
        have hkw0 : kw = "" := by
          rw [String.ext_iff]
          rw [pyUpper_data] at hinf
          simpa using hinf
        exact hnot (hkw0 ▸ hkw)

/-- Witness for C9: a history with a model turn, a user turn without parts
and a user turn with empty text. -/
theorem guards_missing_user_text_witness :
    lastUserMessageText
      [⟨"model", [⟨some "hi"⟩]⟩, ⟨"user", []⟩, ⟨"user", [⟨some ""⟩]⟩] = "" ∧
    (lastUserMessageText
      [⟨"model", [⟨some "hi"⟩]⟩, ⟨"user", []⟩, ⟨"user", [⟨some ""⟩]⟩]).length /
        (TokenGuard.make 200 5000).chars_per_token = 0 ∧
    (TokenGuard.make 200 5000).call
      [⟨"model", [⟨some "hi"⟩]⟩, ⟨"user", []⟩, ⟨"user", [⟨some ""⟩]⟩] = none ∧
    (QueryGuard.call ⟨["secret"]⟩
        [⟨"model", [⟨some "hi"⟩]⟩, ⟨"user", []⟩, ⟨"user", [⟨some ""⟩]⟩] = none ↔
      "" ∉ (⟨["secret"]⟩ : QueryGuard).blocked_words) :=
  guards_missing_user_text ⟨["secret"]⟩ (TokenGuard.make 200 5000)
    [⟨"model", [⟨some "hi"⟩]⟩, ⟨"user", []⟩, ⟨"user", [⟨some ""⟩]⟩] (by
      intro c hc hrole p rest hp
      simp only [List.mem_cons, List.not_mem_nil, or_false] at hc
      rcases hc with rfl | rfl | rfl
      · exact absurd hrole (by decide)
      · exact absurd hp (by simp)
      · injection hp with h1 h2
        rw [← h1]
        rfl)

end Guardrails
